import Mathlib

/-!
Shallow embedding of the feed-assembly core of the `rec_sys` repository
(`app/ranker/diversifier.py`, `app/ranker/model.py`,
`app/ranker/candidate_sources.py`, and the `get_diverse_feed` pipeline of
`app/main.py`), together with theorems settling the spec claims.

Modelling conventions:
- Python candidate ids are `String`; scores are modelled as `ℚ`
  (the code only compares and copies scores, never does float-specific
  arithmetic on them).
- Python sets used only for membership tests are modelled as `List String`
  with `∈`.
- Python dicts that preserve insertion order are modelled as association
  lists `List (String × _)`.
-/

namespace RecSys

/-- `diversifier.filter_seen_pairs` (diversifier.py line 7-8): list
comprehension keeping the pairs whose id is not in the shown set. -/
def filter_seen_pairs (bucket_list : List (String × ℚ)) (shown_set : List String) :
    List (String × ℚ) :=
  bucket_list.filter (fun p => decide (p.1 ∉ shown_set))

/-- The three bucket ratios (`settings.BucketRatios`), modelled as rationals.
The code stores floats; every ratio the system configures is non-negative. -/
structure BucketRatios where
  personal : ℚ
  category : ℚ
  fresh : ℚ

/-- `int(r * final_feed_size)` of diversifier.py lines 18-20.  Python `int()`
truncates toward zero, which for the non-negative ratios in scope is the
floor of `r * final_feed_size`, computed on the reduced fraction as
`num * final_feed_size / den` in integer arithmetic. -/
def numFor (r : ℚ) (final_feed_size : ℕ) : ℕ :=
  r.num.toNat * final_feed_size / r.den

/-- The `{"personal": ..., "category": ..., "fresh": ...}` dict of id lists
returned by `slice_buckets_by_ratio` and consumed by `interleave_buckets`. -/
structure Slices where
  personal : List String
  category : List String
  fresh : List String
deriving DecidableEq, Repr

/-- `diversifier.slice_buckets_by_ratio` (diversifier.py lines 11-38):
take the first `num_x` ids of each bucket, then if the combined length is
short of `final_feed_size`, backfill the deficit from
`personal[num_personal : num_personal + deficit]`. -/
def slice_buckets_by_ratio (personal category fresh : List (String × ℚ))
    (final_feed_size : ℕ) (ratios : BucketRatios) : Slices :=
  let num_personal := numFor ratios.personal final_feed_size
  let num_category := numFor ratios.category final_feed_size
  let num_fresh := numFor ratios.fresh final_feed_size
  let personal_slice := (personal.take num_personal).map Prod.fst
  let category_slice := (category.take num_category).map Prod.fst
  let fresh_slice := (fresh.take num_fresh).map Prod.fst
  let combined_len := personal_slice.length + category_slice.length + fresh_slice.length
  let personal_slice :=
    if combined_len < final_feed_size then
      personal_slice ++
        ((personal.drop num_personal).take (final_feed_size - combined_len)).map Prod.fst
    else personal_slice
  { personal := personal_slice, category := category_slice, fresh := fresh_slice }

/-- The names of the three queues, in the dict-iteration order
`personal, category, fresh` of diversifier.py lines 42-46. -/
inductive BucketName where
  | personal
  | category
  | fresh
deriving DecidableEq, Repr

/-- The queue for a given bucket name. -/
def Slices.get (q : Slices) : BucketName → List String
  | .personal => q.personal
  | .category => q.category
  | .fresh => q.fresh

/-- Combined number of queued ids. -/
def Slices.totalLen (q : Slices) : ℕ :=
  q.personal.length + q.category.length + q.fresh.length

/-- `pattern[i % len(pattern)]` for
`pattern = ["personal","personal","personal","category","fresh"]`
(diversifier.py line 48 and 53). -/
def patternAt (i : ℕ) : BucketName :=
  match i % 5 with
  | 3 => .category
  | 4 => .fresh
  | _ => .personal

/-- `if queues[bucket_name]: final_feed.append(queues[bucket_name].popleft())`
(diversifier.py lines 54-55): pop the front of the named queue when
non-empty. -/
def popNamed (q : Slices) : BucketName → Option (String × Slices)
  | .personal =>
    match q.personal with
    | [] => none
    | x :: xs => some (x, { q with personal := xs })
  | .category =>
    match q.category with
    | [] => none
    | x :: xs => some (x, { q with category := xs })
  | .fresh =>
    match q.fresh with
    | [] => none
    | x :: xs => some (x, { q with fresh := xs })

/-- The fallback of diversifier.py lines 57-61: pop from the first non-empty
queue in dict-iteration order `personal, category, fresh`. -/
def popFallback (q : Slices) : Option (String × Slices) :=
  match q.personal with
  | x :: xs => some (x, { q with personal := xs })
  | [] =>
    match q.category with
    | x :: xs => some (x, { q with category := xs })
    | [] =>
      match q.fresh with
      | x :: xs => some (x, { q with fresh := xs })
      | [] => none

/-- One iteration of the while-loop body (diversifier.py lines 53-61): pop the
queue named by the pattern, falling back to the first non-empty queue. -/
def popStep (q : Slices) (i : ℕ) : Option (String × Slices) :=
  match popNamed q (patternAt i) with
  | some r => some r
  | none => popFallback q

/-- The while-loop of diversifier.py lines 52-62, which runs while
`len(final_feed) < final_feed_size` and some queue is non-empty.  Each
iteration pops exactly one queued id, so the loop performs at most
`totalLen` iterations; `fuel` is instantiated with the initial total queue
length, making the recursion structural without changing the result. -/
def interleaveLoop (fuel : ℕ) (q : Slices) (i : ℕ) (final_feed : List String)
    (final_feed_size : ℕ) : List String × Slices :=
  match fuel with
  | 0 => (final_feed, q)
  | fuel + 1 =>
    if final_feed.length < final_feed_size ∧ 0 < q.totalLen then
      match popStep q i with
      | some (x, q') => interleaveLoop fuel q' (i + 1) (final_feed ++ [x]) final_feed_size
      | none => (final_feed, q)
    else (final_feed, q)

/-- The pad phase of diversifier.py lines 64-70: while still short, drain the
remaining queues in the fixed order personal → category → fresh.  Draining in
that order until `final_feed_size` is reached appends exactly a prefix of the
concatenated remainders. -/
def padFeed (final_feed : List String) (final_feed_size : ℕ) (q : Slices) :
    List String :=
  if final_feed.length < final_feed_size then
    final_feed ++ (q.personal ++ q.category ++ q.fresh).take (final_feed_size - final_feed.length)
  else final_feed

/-- The de-duplication loop of diversifier.py lines 72-80: walk the
accumulated feed keeping first occurrences, breaking as soon as the unique
list reaches `final_feed_size` (checked after each element is processed). -/
def dedupLoop (final_feed_size : ℕ) : List String → List String → List String → List String
  | [], _, unique_final => unique_final
  | pid :: rest, seen, unique_final =>
    let step :=
      if pid ∈ seen then (seen, unique_final) else (pid :: seen, unique_final ++ [pid])
    if step.2.length = final_feed_size then step.2
    else dedupLoop final_feed_size rest step.1 step.2

/-- `diversifier.interleave_buckets` (diversifier.py lines 41-82): pattern
interleave, pad from remainders, then de-duplicate preserving order. -/
def interleave_buckets (slices : Slices) (final_feed_size : ℕ) : List String :=
  let r := interleaveLoop slices.totalLen slices 0 [] final_feed_size
  let padded := padFeed r.1 final_feed_size r.2
  dedupLoop final_feed_size padded [] []

/-! ## model.py -/

/-- The observable behaviour of one `predict(features)` call in model.py:
it can raise, or return a value that is either not a non-empty dict
(`none`, covering Python `None` and any non-dict) or a dict of scores. -/
inductive PredictOutcome where
  | raises
  | returns (out : Option (List (String × ℚ)))
deriving DecidableEq

/-- model.py `predict` (lines 4-6): the mocked model call does nothing and
returns `None`. -/
def predict (_features : List String) : PredictOutcome :=
  .returns none

/-- The fallback tail of `score_with_model_or_fallback` (model.py lines
20-23): a supplied non-empty fallback map wins, otherwise every feature key
maps to `0.0`.  `str(k)` and `float(v)` are identities on the modelled
`String` keys and `ℚ` values. -/
def scoreFallback (features_keys : List String)
    (fallback_scores : Option (List (String × ℚ))) : List (String × ℚ) :=
  match fallback_scores with
  | some fb => if 0 < fb.length then fb else features_keys.map (fun pid => (pid, 0))
  | none => features_keys.map (fun pid => (pid, 0))

/-- model.py `score_with_model_or_fallback` (lines 9-23): use the model
output when it is a non-empty dict; on an exception or any other output,
fall through to `scoreFallback`. -/
def score_with_model_or_fallback (predict_out : PredictOutcome)
    (features_keys : List String) (fallback_scores : Option (List (String × ℚ))) :
    List (String × ℚ) :=
  match predict_out with
  | .returns (some out) =>
    if out ≠ [] then out else scoreFallback features_keys fallback_scores
  | _ => scoreFallback features_keys fallback_scores

/-! ## candidate_sources.py -/

/-- A raw row returned by `get_product_metadata_for_ids` on either store.
`created_at` is modelled as the already ISO-formatted timestamp string. -/
structure Row where
  product_id : String
  title : Option String := none
  price : Option ℚ := none
  images : Option (List String) := none
  category : Option String := none
  like_count : Option ℤ := none
  description : Option String := none
  url : Option String := none
  brand : Option String := none
  created_at : Option String := none
  currency : Option String := none
  availability : Option String := none
deriving DecidableEq, Repr

/-- The frontend-shaped record built in `join_product_metadata`. -/
structure ProductMeta where
  id : String
  title : Option String
  price : Option ℚ
  images : List String
  category : Option String
  like_count : ℤ
  description : Option String
  url : Option String
  brand : Option String
  created_at : Option String
  currency : Option String
  availability : Option String
deriving DecidableEq, Repr

/-- The row-to-record mapping of candidate_sources.py lines 38-51 (and the
identical BigQuery mapping, lines 68-82).  `float(row["price"]) if
row.get("price")` makes a falsy price (absent or `0`) map to `None`;
`row.get("images") or []` defaults to `[]`; `row.get("like_count", 0)`
defaults to `0`. -/
def rowToMeta (row : Row) : ProductMeta :=
  { id := row.product_id
    title := row.title
    price := match row.price with
      | some p => if p = 0 then none else some p
      | none => none
    images := row.images.getD []
    category := row.category
    like_count := row.like_count.getD 0
    description := row.description
    url := row.url
    brand := row.brand
    created_at := row.created_at
    currency := row.currency
    availability := row.availability }

/-- Python dict assignment `result[k] = v` on an insertion-ordered dict:
replace in place when the key exists, append otherwise. -/
def dictSet (d : List (String × ProductMeta)) (k : String) (v : ProductMeta) :
    List (String × ProductMeta) :=
  if d.any (fun p => decide (p.1 = k)) then
    d.map (fun p => if p.1 = k then (k, v) else p)
  else d ++ [(k, v)]

/-- The `for row in rows: result[row["product_id"]] = {...}` loop filling an
initially empty dict. -/
def buildDict (rows : List Row) : List (String × ProductMeta) :=
  rows.foldl (fun result row => dictSet result row.product_id (rowToMeta row)) []

/-- Python `d.get(k)` on the modelled insertion-ordered dict. -/
def dictGet (d : List (String × ProductMeta)) (k : String) : Option ProductMeta :=
  (d.find? (fun p => decide (p.1 = k))).map Prod.snd

/-- `candidate_sources.join_product_metadata` (lines 28-86).  The two stores
are the collaborators `pg` (primary Postgres lookup) and `bq` (secondary
BigQuery lookup, which may raise — the whole `try` block then falls through
with `result` still empty); `bq_configured` models
`settings.bq_dataset and settings.bq_table_products` both being set. -/
def join_product_metadata (bq_configured : Bool) (pg : List String → List Row)
    (bq : List String → Except Unit (List Row)) (prod_ids : List String) :
    List (String × ProductMeta) :=
  let result := buildDict (pg prod_ids)
  if result ≠ [] then result
  else if bq_configured then
    match bq prod_ids with
    | .ok bq_rows => buildDict bq_rows
    | .error _ => result
  else result

/-! ## main.py, get_diverse_feed -/

/-- `dict.fromkeys` / dict-comprehension de-duplication keeping first
occurrences (main.py line 337, and the key sets of
`fetch_features_for_ids` / `fetch_freshness_metrics`). -/
def dedupFirstAux (seen : List String) : List String → List String
  | [] => []
  | x :: xs => if x ∈ seen then dedupFirstAux seen xs else x :: dedupFirstAux (x :: seen) xs

/-- De-duplicate a list keeping first occurrences. -/
def dedupFirst (l : List String) : List String :=
  dedupFirstAux [] l

/-- Stable descending insertion used to model Python
`sorted(pairs, key=lambda x: x[1], reverse=True)`: a later element is placed
after every element of equal or larger score. -/
def insertDesc (x : String × ℚ) : List (String × ℚ) → List (String × ℚ)
  | [] => [x]
  | y :: ys => if y.2 < x.2 then x :: y :: ys else y :: insertDesc x ys

/-- Python `sorted(pairs, key=lambda x: x[1], reverse=True)`: stable sort,
descending by score, ties keeping original order (main.py lines 399, 409,
417). -/
def sortDesc (l : List (String × ℚ)) : List (String × ℚ) :=
  l.foldl (fun acc x => insertDesc x acc) []

/-- The external collaborators and configuration read by `get_diverse_feed`,
abstracted as request-scoped deterministic lookups:
`getShown` is `get_shown_set_fs`, `popular`/`recent` are the
`query_popular_ids(limit=5000)` / `query_recent_ids(hours=24, limit=1000)`
results, `monolith` is `get_monolith_client(...).predict` (score map only;
it may raise), and `pgMeta`/`bqMeta`/`bq_configured` feed
`join_product_metadata`. -/
structure Env where
  feed_default_size : ℕ
  bucket_ratios : BucketRatios
  monolith_enabled : Bool
  getShown : String → List String
  popular : List String
  recent : List String
  monolith : String → List String → Except Unit (List (String × ℚ))
  bq_configured : Bool
  pgMeta : List String → List Row
  bqMeta : List String → Except Unit (List Row)

/-- Observable outcome of one `get_diverse_feed` request: the interleaved id
sequence, the hydrated feed items (id paired with its record), the personal
score map, and whether the shown-set history was read / written. -/
structure RunResult where
  final_ids : List String
  items : List (String × ProductMeta)
  personal_scores : List (String × ℚ)
  history_read : Bool
  history_written : Bool
deriving DecidableEq

/-- `main.get_diverse_feed` (main.py lines 319-463), restricted to the
feed-assembly data flow (Kafka publishing and logging are fire-and-forget
side channels with no influence on the response).

- `n or settings.feed_default_size`: Python `or` replaces both `None` and
  `0` by the default.
- `shown_set` is read only for non-anonymous users (line 332), and
  `add_shown_items_fs` runs only for non-anonymous users (lines 437-438);
  the two effect flags record this.
- `top_categories` is the empty list (line 402), so the category bucket
  chain runs on no ids.
- Monolith scoring (lines 342-397) is attempted only when enabled, the user
  is not anonymous and there are unseen candidates; on failure it falls back
  to `score_with_model_or_fallback`, which is also the path taken otherwise.
- `fetch_features_for_ids` and `fetch_freshness_metrics` build dicts keyed
  by id, so their key lists keep first occurrences only. -/
def get_diverse_feed (env : Env) (user_id : String) (n : Option ℕ) : RunResult :=
  let final_feed_size := match n with
    | some k => if k = 0 then env.feed_default_size else k
    | none => env.feed_default_size
  let is_anonymous : Bool := user_id == "anonymous"
  let shown_set := if is_anonymous then [] else env.getShown user_id
  let popular_ids := env.popular
  let recent_ids := env.recent
  let candidates_raw := dedupFirst (popular_ids ++ recent_ids)
  let candidates_unseen := candidates_raw.filter (fun pid => decide (pid ∉ shown_set))
  let personal_scores :=
    if env.monolith_enabled && !is_anonymous && !candidates_unseen.isEmpty then
      match env.monolith user_id (candidates_unseen.take 500) with
      | .ok scores => scores
      | .error _ =>
        score_with_model_or_fallback (predict (dedupFirst candidates_unseen))
          (dedupFirst candidates_unseen) none
    else
      score_with_model_or_fallback (predict (dedupFirst candidates_unseen))
        (dedupFirst candidates_unseen) none
  let personalized_sorted := sortDesc personal_scores
  let cat_bucket_ids : List String := []
  let cat_bucket_unseen := cat_bucket_ids.filter (fun pid => decide (pid ∉ shown_set))
  let cat_scores :=
    score_with_model_or_fallback (predict (dedupFirst cat_bucket_unseen))
      (dedupFirst cat_bucket_unseen) none
  let cat_div_sorted := sortDesc cat_scores
  let recent_pool := env.recent
  let recent_unseen := recent_pool.filter (fun pid => decide (pid ∉ shown_set))
  let freshness_metrics := (dedupFirst recent_unseen).map (fun pid => (pid, (1 : ℚ)))
  let fresh_features_keys := dedupFirst (freshness_metrics.map Prod.fst)
  let fresh_model_scores :=
    score_with_model_or_fallback (predict fresh_features_keys) fresh_features_keys
      (some freshness_metrics)
  let fresh_div_sorted := sortDesc fresh_model_scores
  let personalized_sorted := filter_seen_pairs personalized_sorted shown_set
  let cat_div_sorted := filter_seen_pairs cat_div_sorted shown_set
  let fresh_div_sorted := filter_seen_pairs fresh_div_sorted shown_set
  let slices := slice_buckets_by_ratio personalized_sorted cat_div_sorted fresh_div_sorted
    final_feed_size env.bucket_ratios
  let final_ids := interleave_buckets slices final_feed_size
  let product_metadata := join_product_metadata env.bq_configured env.pgMeta env.bqMeta final_ids
  let items := final_ids.filterMap
    (fun pid => (dictGet product_metadata pid).map (fun meta => (pid, meta)))
  { final_ids := final_ids
    items := items
    personal_scores := personal_scores
    history_read := !is_anonymous
    history_written := !is_anonymous }

/-! ## Interleave lemmas -/

/-- The multiset of all queued ids. -/
def qMulti (q : Slices) : Multiset String :=
  (q.personal : Multiset String) + (q.category : Multiset String) + (q.fresh : Multiset String)

lemma qMulti_card (q : Slices) : Multiset.card (qMulti q) = q.totalLen := by
  simp only [qMulti, Multiset.card_add, Multiset.coe_card, Slices.totalLen]

lemma mem_qMulti {x : String} {q : Slices} :
    x ∈ qMulti q ↔ x ∈ q.personal ∨ x ∈ q.category ∨ x ∈ q.fresh := by
  simp [qMulti, or_assoc]

/-- One queue popped its front id `x`, leaving `q'`. -/
def PopsTo (q : Slices) (x : String) (q' : Slices) : Prop :=
  (q.personal = x :: q'.personal ∧ q.category = q'.category ∧ q.fresh = q'.fresh) ∨
  (q.personal = q'.personal ∧ q.category = x :: q'.category ∧ q.fresh = q'.fresh) ∨
  (q.personal = q'.personal ∧ q.category = q'.category ∧ q.fresh = x :: q'.fresh)

lemma popNamed_popsTo {q : Slices} {b : BucketName} {x : String} {q' : Slices}
    (h : popNamed q b = some (x, q')) : PopsTo q x q' := by
  obtain ⟨p, c, f⟩ := q
  cases b <;>
    [cases p; cases c; cases f] <;>
    simp only [popNamed] at h <;>
    first
      | exact Option.noConfusion h
      | (simp only [Option.some.injEq, Prod.mk.injEq] at h
         obtain ⟨rfl, rfl⟩ := h
         simp [PopsTo])

lemma popFallback_popsTo {q : Slices} {x : String} {q' : Slices}
    (h : popFallback q = some (x, q')) : PopsTo q x q' := by
  obtain ⟨p, c, f⟩ := q
  cases p <;> cases c <;> cases f <;> simp only [popFallback] at h <;>
    first
      | exact Option.noConfusion h
      | (simp only [Option.some.injEq, Prod.mk.injEq] at h
         obtain ⟨rfl, rfl⟩ := h
         simp [PopsTo])

lemma popFallback_none {q : Slices} (h : popFallback q = none) : q.totalLen = 0 := by
  obtain ⟨p, c, f⟩ := q
  cases p <;> cases c <;> cases f <;> simp_all [popFallback, Slices.totalLen]

lemma popStep_popsTo {q : Slices} {i : ℕ} {x : String} {q' : Slices}
    (h : popStep q i = some (x, q')) : PopsTo q x q' := by
  unfold popStep at h
  cases hn : popNamed q (patternAt i) with
  | some r =>
    rw [hn] at h
    cases h
    exact popNamed_popsTo hn
  | none =>
    rw [hn] at h
    exact popFallback_popsTo h

lemma popStep_none {q : Slices} {i : ℕ} (h : popStep q i = none) : q.totalLen = 0 := by
  unfold popStep at h
  cases hn : popNamed q (patternAt i) with
  | some r => rw [hn] at h; cases h
  | none => rw [hn] at h; exact popFallback_none h

lemma PopsTo.qMulti_eq {q : Slices} {x : String} {q' : Slices} (h : PopsTo q x q') :
    qMulti q = x ::ₘ qMulti q' := by
  rcases h with ⟨h1, h2, h3⟩ | ⟨h1, h2, h3⟩ | ⟨h1, h2, h3⟩ <;>
    simp [qMulti, h1, h2, h3, Multiset.cons_add, Multiset.add_cons]
  rw [← List.append_assoc, ← List.append_assoc]
  exact List.perm_middle

lemma PopsTo.totalLen_eq {q : Slices} {x : String} {q' : Slices} (h : PopsTo q x q') :
    q.totalLen = q'.totalLen + 1 := by
  have := congrArg Multiset.card h.qMulti_eq
  simpa [qMulti_card] using this

/-- The interleave loop never grows the feed beyond the requested size. -/
lemma interleaveLoop_length_le (n : ℕ) :
    ∀ (fuel : ℕ) (q : Slices) (i : ℕ) (acc : List String), acc.length ≤ n →
      (interleaveLoop fuel q i acc n).1.length ≤ n := by
  intro fuel
  induction fuel with
  | zero => intro q i acc h; simpa [interleaveLoop] using h
  | succ fuel ih =>
    intro q i acc h
    unfold interleaveLoop
    split
    · rename_i hcond
      cases hstep : popStep q i with
      | some r =>
        obtain ⟨x, q'⟩ := r
        simp only
        apply ih
        simp only [List.length_append, List.length_cons, List.length_nil]
        omega
      | none => simpa using h
    · simpa using h

/-- Each loop iteration moves exactly one id from the queues to the feed:
the combined multiset is preserved. -/
lemma interleaveLoop_multiset :
    ∀ (fuel : ℕ) (q : Slices) (i : ℕ) (acc : List String) (n : ℕ),
      ((interleaveLoop fuel q i acc n).1 : Multiset String)
          + qMulti (interleaveLoop fuel q i acc n).2
        = (acc : Multiset String) + qMulti q := by
  intro fuel
  induction fuel with
  | zero => intro q i acc n; simp [interleaveLoop]
  | succ fuel ih =>
    intro q i acc n
    unfold interleaveLoop
    split
    · cases hstep : popStep q i with
      | some r =>
        obtain ⟨x, q'⟩ := r
        simp only
        rw [ih, (popStep_popsTo hstep).qMulti_eq]
        rw [← Multiset.coe_add, Multiset.coe_singleton, ← Multiset.singleton_add]
        abel
      | none => simp
    · simp

/-- Feed/queue length bookkeeping: the loop only moves ids, so the lengths
balance. -/
lemma interleaveLoop_length_total (fuel : ℕ) (q : Slices) (i : ℕ) (acc : List String) (n : ℕ) :
    (interleaveLoop fuel q i acc n).1.length + (interleaveLoop fuel q i acc n).2.totalLen
      = acc.length + q.totalLen := by
  have h := congrArg Multiset.card (interleaveLoop_multiset fuel q i acc n)
  simpa [qMulti_card] using h

/-- With enough fuel (the initial total queue length suffices), the loop only
stops once the feed is full or every queue is empty. -/
lemma interleaveLoop_reaches :
    ∀ (fuel : ℕ) (q : Slices) (i : ℕ) (acc : List String) (n : ℕ), q.totalLen ≤ fuel →
      n ≤ (interleaveLoop fuel q i acc n).1.length
        ∨ (interleaveLoop fuel q i acc n).2.totalLen = 0 := by
  intro fuel
  induction fuel with
  | zero =>
    intro q i acc n hf
    right
    simpa [interleaveLoop] using Nat.le_zero.mp hf
  | succ fuel ih =>
    intro q i acc n hf
    unfold interleaveLoop
    split
    · rename_i hcond
      cases hstep : popStep q i with
      | some r =>
        obtain ⟨x, q'⟩ := r
        simp only
        apply ih
        have := (popStep_popsTo hstep).totalLen_eq
        omega
      | none =>
        right
        simpa using popStep_none hstep
    · rename_i hcond
      rw [Decidable.not_and_iff_or_not] at hcond
      rcases hcond with h | h
      · left
        simpa using Nat.le_of_not_lt h
      · right
        simpa using Nat.eq_zero_of_not_pos h

/-- The pad phase never grows the feed beyond the requested size. -/
lemma padFeed_length_le {feed : List String} {n : ℕ} (q : Slices) (h : feed.length ≤ n) :
    (padFeed feed n q).length ≤ n := by
  unfold padFeed
  split
  · simp only [List.length_append, List.length_take]
    omega
  · exact h

/-- A feed already at (or beyond) the requested size is not padded. -/
lemma padFeed_eq_of_ge {feed : List String} {n : ℕ} (q : Slices) (h : n ≤ feed.length) :
    padFeed feed n q = feed := by
  unfold padFeed
  rw [if_neg (by omega)]

/-- `qMulti` as the coercion of the concatenated queues. -/
lemma qMulti_coe (q : Slices) :
    qMulti q = ((q.personal ++ q.category ++ q.fresh : List String) : Multiset String) := by
  simp only [qMulti, Multiset.coe_add]

/-- Padding draws only from the remaining queues. -/
lemma padFeed_multiset_le (feed : List String) (n : ℕ) (q : Slices) :
    ((padFeed feed n q : List String) : Multiset String) ≤ (feed : Multiset String) + qMulti q := by
  unfold padFeed
  split
  · rw [qMulti_coe, Multiset.coe_add]
    exact Multiset.coe_le.mpr
      (List.Sublist.subperm (List.Sublist.append_left (List.take_sublist _ _) feed))
  · exact Multiset.le_add_right _ _

/-- The de-duplication loop's output is no longer than its inputs combined. -/
lemma dedupLoop_length_le :
    ∀ (feed seen unique : List String) (n : ℕ),
      (dedupLoop n feed seen unique).length ≤ unique.length + feed.length := by
  intro feed
  induction feed with
  | nil => intro seen unique n; simp [dedupLoop]
  | cons pid rest ih =>
    intro seen unique n
    by_cases hmem : pid ∈ seen
    · simp only [dedupLoop, hmem, if_true]
      split
      · simp
      · have := ih seen unique n
        simp only [List.length_cons]
        omega
    · simp only [dedupLoop, hmem, if_false]
      split
      · simp
      · have := ih (pid :: seen) (unique ++ [pid]) n
        simp only [List.length_append, List.length_cons, List.length_nil] at this ⊢
        omega

/-- The de-duplication loop keeps the accumulated uniques duplicate-free. -/
lemma dedupLoop_nodup :
    ∀ (feed seen unique : List String) (n : ℕ),
      unique.Nodup → (∀ x ∈ unique, x ∈ seen) → (dedupLoop n feed seen unique).Nodup := by
  intro feed
  induction feed with
  | nil => intro seen unique n hnd _; simpa [dedupLoop] using hnd
  | cons pid rest ih =>
    intro seen unique n hnd hinv
    by_cases hmem : pid ∈ seen
    · simp only [dedupLoop, hmem, if_true]
      split
      · exact hnd
      · exact ih seen unique n hnd hinv
    · have hpid : pid ∉ unique := fun hx => hmem (hinv pid hx)
      have hnd' : (unique ++ [pid]).Nodup := by
        simp [List.nodup_append, hnd, hpid]
      have hinv' : ∀ x ∈ unique ++ [pid], x ∈ pid :: seen := by
        intro x hx
        rcases List.mem_append.mp hx with h | h
        · exact List.mem_cons_of_mem _ (hinv x h)
        · simp only [List.mem_singleton] at h
          simp [h]
      simp only [dedupLoop, hmem, if_false]
      split
      · exact hnd'
      · exact ih (pid :: seen) (unique ++ [pid]) n hnd' hinv'

/-- Every id the de-duplication loop emits comes from the accumulated uniques
or the walked feed. -/
lemma dedupLoop_mem :
    ∀ (feed seen unique : List String) (n : ℕ) (x : String),
      x ∈ dedupLoop n feed seen unique → x ∈ unique ∨ x ∈ feed := by
  intro feed
  induction feed with
  | nil => intro seen unique n x h; left; simpa [dedupLoop] using h
  | cons pid rest ih =>
    intro seen unique n x h
    by_cases hmem : pid ∈ seen
    · simp only [dedupLoop, hmem, if_true] at h
      split at h
      · exact Or.inl h
      · rcases ih seen unique n x h with h' | h'
        · exact Or.inl h'
        · exact Or.inr (List.mem_cons_of_mem _ h')
    · simp only [dedupLoop, hmem, if_false] at h
      have hsplit : x ∈ unique ++ [pid] ∨ x ∈ rest := by
        split at h
        · exact Or.inl h
        · exact ih (pid :: seen) (unique ++ [pid]) n x h
      rcases hsplit with h' | h'
      · rcases List.mem_append.mp h' with h'' | h''
        · exact Or.inl h''
        · simp only [List.mem_singleton] at h''
          exact Or.inr (by simp [h''])
      · exact Or.inr (List.mem_cons_of_mem _ h')

/-- On a duplicate-free feed of at most the requested size (none of whose ids
were seen before), the de-duplication loop is the identity. -/
lemma dedupLoop_of_nodup :
    ∀ (feed seen unique : List String) (n : ℕ),
      feed.Nodup → (∀ x ∈ feed, x ∉ seen) → unique.length + feed.length ≤ n →
      dedupLoop n feed seen unique = unique ++ feed := by
  intro feed
  induction feed with
  | nil => intro seen unique n _ _ _; simp [dedupLoop]
  | cons pid rest ih =>
    intro seen unique n hnd hseen hlen
    have hpid : pid ∉ seen := hseen pid (List.mem_cons_self _ _)
    have hrest : pid ∉ rest := (List.nodup_cons.mp hnd).1
    simp only [dedupLoop, hpid, if_false]
    split
    · rename_i hfull
      simp only [List.length_append, List.length_cons, List.length_nil] at hfull hlen
      have : rest = [] := List.length_eq_zero.mp (by omega)
      subst this
      simp
    · rw [ih (pid :: seen) (unique ++ [pid]) n (List.nodup_cons.mp hnd).2
        (fun x hx => by
          simp only [List.mem_cons]
          push_neg
          exact ⟨fun hxp => hrest (hxp ▸ hx), hseen x (List.mem_cons_of_mem _ hx)⟩)
        (by simp only [List.length_append, List.length_cons, List.length_nil] at hlen ⊢; omega)]
      simp

/-- Every id in the interleave output comes from one of the three slices. -/
lemma mem_interleave {s : Slices} {n : ℕ} {x : String}
    (h : x ∈ interleave_buckets s n) :
    x ∈ s.personal ∨ x ∈ s.category ∨ x ∈ s.fresh := by
  simp only [interleave_buckets] at h
  rcases dedupLoop_mem _ _ _ _ _ h with h' | h'
  · cases h'
  · have h3 : x ∈ ((padFeed (interleaveLoop s.totalLen s 0 [] n).1 n
        (interleaveLoop s.totalLen s 0 [] n).2 : List String) : Multiset String) :=
      Multiset.mem_coe.mpr h'
    have h6 : ((padFeed (interleaveLoop s.totalLen s 0 [] n).1 n
        (interleaveLoop s.totalLen s 0 [] n).2 : List String) : Multiset String) ≤ qMulti s := by
      calc ((padFeed (interleaveLoop s.totalLen s 0 [] n).1 n
            (interleaveLoop s.totalLen s 0 [] n).2 : List String) : Multiset String)
          ≤ ((interleaveLoop s.totalLen s 0 [] n).1 : Multiset String)
            + qMulti (interleaveLoop s.totalLen s 0 [] n).2 := padFeed_multiset_le _ _ _
        _ = qMulti s := by simpa using interleaveLoop_multiset s.totalLen s 0 [] n
    exact mem_qMulti.mp (Multiset.mem_of_le h6 h3)

/-- The interleave output stays within the requested size. -/
lemma interleave_length_le (s : Slices) (n : ℕ) :
    (interleave_buckets s n).length ≤ n := by
  simp only [interleave_buckets]
  have h1 : (interleaveLoop s.totalLen s 0 [] n).1.length ≤ n :=
    interleaveLoop_length_le n s.totalLen s 0 [] (by simp)
  have h2 := padFeed_length_le (interleaveLoop s.totalLen s 0 [] n).2 h1
  have h3 := dedupLoop_length_le
    (padFeed (interleaveLoop s.totalLen s 0 [] n).1 n (interleaveLoop s.totalLen s 0 [] n).2)
    [] [] n
  simp only [List.length_nil, Nat.zero_add] at h3
  omega

/-- When the slices jointly contain no duplicate id, the padded feed is
duplicate-free. -/
lemma interleave_padded_nodup (s : Slices) (n : ℕ)
    (hnd : (s.personal ++ s.category ++ s.fresh).Nodup) :
    (padFeed (interleaveLoop s.totalLen s 0 [] n).1 n
      (interleaveLoop s.totalLen s 0 [] n).2).Nodup := by
  have hle : ((padFeed (interleaveLoop s.totalLen s 0 [] n).1 n
      (interleaveLoop s.totalLen s 0 [] n).2 : List String) : Multiset String)
      ≤ ((s.personal ++ s.category ++ s.fresh : List String) : Multiset String) := by
    calc ((padFeed (interleaveLoop s.totalLen s 0 [] n).1 n
          (interleaveLoop s.totalLen s 0 [] n).2 : List String) : Multiset String)
        ≤ ((interleaveLoop s.totalLen s 0 [] n).1 : Multiset String)
          + qMulti (interleaveLoop s.totalLen s 0 [] n).2 := padFeed_multiset_le _ _ _
      _ = qMulti s := by simpa using interleaveLoop_multiset s.totalLen s 0 [] n
      _ = _ := qMulti_coe s
  exact Multiset.coe_nodup.mp (Multiset.nodup_of_le hle (Multiset.coe_nodup.mpr hnd))

/-- When the slices jointly contain no duplicate id, the de-duplication pass
is the identity: the interleave output is exactly the padded feed. -/
lemma interleave_eq_padded_of_nodup (s : Slices) (n : ℕ)
    (hnd : (s.personal ++ s.category ++ s.fresh).Nodup) :
    interleave_buckets s n
      = padFeed (interleaveLoop s.totalLen s 0 [] n).1 n
          (interleaveLoop s.totalLen s 0 [] n).2 := by
  simp only [interleave_buckets]
  have h1 : (interleaveLoop s.totalLen s 0 [] n).1.length ≤ n :=
    interleaveLoop_length_le n s.totalLen s 0 [] (by simp)
  have h2 := padFeed_length_le (interleaveLoop s.totalLen s 0 [] n).2 h1
  rw [dedupLoop_of_nodup _ [] [] n (interleave_padded_nodup s n hnd)
    (fun x _ hx => by cases hx) (by simpa using h2)]
  simp

/-- Splitting a `drop` at a cons: the head is the next element of the
underlying list. -/
lemma drop_cons_parts {l t : List String} {x : String} {k : ℕ} (h : l.drop k = x :: t) :
    l.drop (k + 1) = t ∧ x ∈ l ∧ l.take (k + 1) = l.take k ++ [x] := by
  have hk : k < l.length := by
    by_contra hk
    push_neg at hk
    rw [List.drop_eq_nil_of_le hk] at h
    cases h
  have hget := List.drop_eq_getElem_cons hk
  rw [hget] at h
  injection h with h1 h2
  refine ⟨h2, ?_, ?_⟩
  · exact h1 ▸ List.getElem_mem hk
  · rw [List.take_succ, List.getElem?_eq_getElem hk, h1]
    rfl

/-- Loop invariant for within-bucket order (assuming the three slices are
pairwise disjoint): the queues are always suffixes of the original slices,
and the ids of the accumulated feed that belong to a given slice are exactly
the matching prefix of that slice, in order. -/
lemma interleaveLoop_order (P C F : List String)
    (hPC : ∀ y ∈ P, y ∉ C) (hPF : ∀ y ∈ P, y ∉ F) (hCF : ∀ y ∈ C, y ∉ F) :
    ∀ (fuel : ℕ) (q : Slices) (i : ℕ) (acc : List String) (n a b c : ℕ),
      q.personal = P.drop a → q.category = C.drop b → q.fresh = F.drop c →
      acc.filter (fun y => decide (y ∈ P)) = P.take a →
      acc.filter (fun y => decide (y ∈ C)) = C.take b →
      acc.filter (fun y => decide (y ∈ F)) = F.take c →
      ∃ a' b' c',
        (interleaveLoop fuel q i acc n).2.personal = P.drop a' ∧
        (interleaveLoop fuel q i acc n).2.category = C.drop b' ∧
        (interleaveLoop fuel q i acc n).2.fresh = F.drop c' ∧
        (interleaveLoop fuel q i acc n).1.filter (fun y => decide (y ∈ P)) = P.take a' ∧
        (interleaveLoop fuel q i acc n).1.filter (fun y => decide (y ∈ C)) = C.take b' ∧
        (interleaveLoop fuel q i acc n).1.filter (fun y => decide (y ∈ F)) = F.take c' := by
  intro fuel
  induction fuel with
  | zero =>
    intro q i acc n a b c h1 h2 h3 h4 h5 h6
    simp only [interleaveLoop]
    exact ⟨a, b, c, h1, h2, h3, h4, h5, h6⟩
  | succ fuel ih =>
    intro q i acc n a b c h1 h2 h3 h4 h5 h6
    unfold interleaveLoop
    split
    · cases hstep : popStep q i with
      | none =>
        simp only
        exact ⟨a, b, c, h1, h2, h3, h4, h5, h6⟩
      | some r =>
        obtain ⟨x, q'⟩ := r
        simp only
        rcases popStep_popsTo hstep with ⟨g1, g2, g3⟩ | ⟨g1, g2, g3⟩ | ⟨g1, g2, g3⟩
        · rw [h1] at g1
          obtain ⟨gd, gm, gt⟩ := drop_cons_parts g1
          refine ih q' (i + 1) (acc ++ [x]) n (a + 1) b c gd.symm (g2 ▸ h2) (g3 ▸ h3) ?_ ?_ ?_
          · rw [List.filter_append, h4, gt]
            simp [gm]
          · rw [List.filter_append, h5]
            simp [hPC x gm]
          · rw [List.filter_append, h6]
            simp [hPF x gm]
        · rw [h2] at g2
          obtain ⟨gd, gm, gt⟩ := drop_cons_parts g2
          have hxP : x ∉ P := fun hx => hPC x hx gm
          refine ih q' (i + 1) (acc ++ [x]) n a (b + 1) c (g1 ▸ h1) gd.symm (g3 ▸ h3) ?_ ?_ ?_
          · rw [List.filter_append, h4]
            simp [hxP]
          · rw [List.filter_append, h5, gt]
            simp [gm]
          · rw [List.filter_append, h6]
            simp [hCF x gm]
        · rw [h3] at g3
          obtain ⟨gd, gm, gt⟩ := drop_cons_parts g3
          have hxP : x ∉ P := fun hx => hPF x hx gm
          have hxC : x ∉ C := fun hx => hCF x hx gm
          refine ih q' (i + 1) (acc ++ [x]) n a b (c + 1) (g1 ▸ h1) (g2 ▸ h2) gd.symm ?_ ?_ ?_
          · rw [List.filter_append, h4]
            simp [hxP]
          · rw [List.filter_append, h5]
            simp [hxC]
          · rw [List.filter_append, h6, gt]
            simp [gm]
    · simp only
      exact ⟨a, b, c, h1, h2, h3, h4, h5, h6⟩

/-- Under joint duplicate-freedom, the ids of the interleave output that
belong to a given slice form a prefix of that slice. -/
lemma interleave_filter_prefix (P C F : List String) (n : ℕ)
    (hnd : (P ++ C ++ F).Nodup) :
    ((interleave_buckets ⟨P, C, F⟩ n).filter (fun y => decide (y ∈ P))).IsPrefix P ∧
    ((interleave_buckets ⟨P, C, F⟩ n).filter (fun y => decide (y ∈ C))).IsPrefix C ∧
    ((interleave_buckets ⟨P, C, F⟩ n).filter (fun y => decide (y ∈ F))).IsPrefix F := by
  obtain ⟨hndPC, hndF, hdisjPCF⟩ := List.nodup_append.mp hnd
  obtain ⟨hndP, hndC, hdisjPC⟩ := List.nodup_append.mp hndPC
  have hPC : ∀ y ∈ P, y ∉ C := fun y hy => hdisjPC hy
  have hPF : ∀ y ∈ P, y ∉ F := fun y hy => hdisjPCF (List.mem_append_left C hy)
  have hCF : ∀ y ∈ C, y ∉ F := fun y hy => hdisjPCF (List.mem_append_right P hy)
  obtain ⟨a, b, c, e1, e2, e3, e4, e5, e6⟩ :=
    interleaveLoop_order P C F hPC hPF hCF
      (Slices.totalLen ⟨P, C, F⟩) ⟨P, C, F⟩ 0 [] n 0 0 0
      (by simp) (by simp) (by simp) (by simp) (by simp) (by simp)
  rw [interleave_eq_padded_of_nodup ⟨P, C, F⟩ n hnd]
  generalize hgen : interleaveLoop (Slices.totalLen ⟨P, C, F⟩) ⟨P, C, F⟩ 0 [] n = r
    at e1 e2 e3 e4 e5 e6 ⊢
  unfold padFeed
  split
  · have hLP : (r.2.personal ++ r.2.category ++ r.2.fresh).filter
        (fun y => decide (y ∈ P)) = P.drop a := by
      rw [e1, e2, e3, List.filter_append, List.filter_append,
        List.filter_eq_self.mpr (fun y hy => by simpa using List.mem_of_mem_drop hy),
        List.filter_eq_nil_iff.mpr
          (fun y hy => by simpa using fun hyP => hPC y hyP (List.mem_of_mem_drop hy)),
        List.filter_eq_nil_iff.mpr
          (fun y hy => by simpa using fun hyP => hPF y hyP (List.mem_of_mem_drop hy))]
      simp
    have hLC : (r.2.personal ++ r.2.category ++ r.2.fresh).filter
        (fun y => decide (y ∈ C)) = C.drop b := by
      rw [e1, e2, e3, List.filter_append, List.filter_append,
        List.filter_eq_nil_iff.mpr
          (fun y hy => by simpa using hPC y (List.mem_of_mem_drop hy)),
        List.filter_eq_self.mpr (fun y hy => by simpa using List.mem_of_mem_drop hy),
        List.filter_eq_nil_iff.mpr
          (fun y hy => by simpa using fun hyC => hCF y hyC (List.mem_of_mem_drop hy))]
      simp
    have hLF : (r.2.personal ++ r.2.category ++ r.2.fresh).filter
        (fun y => decide (y ∈ F)) = F.drop c := by
      rw [e1, e2, e3, List.filter_append, List.filter_append,
        List.filter_eq_nil_iff.mpr
          (fun y hy => by simpa using hPF y (List.mem_of_mem_drop hy)),
        List.filter_eq_nil_iff.mpr
          (fun y hy => by simpa using hCF y (List.mem_of_mem_drop hy)),
        List.filter_eq_self.mpr (fun y hy => by simpa using List.mem_of_mem_drop hy)]
      simp
    refine ⟨?_, ?_, ?_⟩
    · have hpre := (List.take_prefix (n - r.1.length)
        (r.2.personal ++ r.2.category ++ r.2.fresh)).filter (fun y => decide (y ∈ P))
      rw [hLP] at hpre
      rw [List.filter_append, e4, List.prefix_iff_eq_take.mp hpre, ← List.take_add]
      exact List.take_prefix _ _
    · have hpre := (List.take_prefix (n - r.1.length)
        (r.2.personal ++ r.2.category ++ r.2.fresh)).filter (fun y => decide (y ∈ C))
      rw [hLC] at hpre
      rw [List.filter_append, e5, List.prefix_iff_eq_take.mp hpre, ← List.take_add]
      exact List.take_prefix _ _
    · have hpre := (List.take_prefix (n - r.1.length)
        (r.2.personal ++ r.2.category ++ r.2.fresh)).filter (fun y => decide (y ∈ F))
      rw [hLF] at hpre
      rw [List.filter_append, e6, List.prefix_iff_eq_take.mp hpre, ← List.take_add]
      exact List.take_prefix _ _
  · rw [e4, e5, e6]
    exact ⟨List.take_prefix _ _, List.take_prefix _ _, List.take_prefix _ _⟩

/-- Under joint duplicate-freedom, the interleave output reaches the
requested size whenever the slices hold enough ids. -/
lemma interleave_length_eq (P C F : List String) (n : ℕ)
    (hnd : (P ++ C ++ F).Nodup) (hlen : n ≤ P.length + C.length + F.length) :
    (interleave_buckets ⟨P, C, F⟩ n).length = n := by
  have h1 : (interleaveLoop (Slices.totalLen ⟨P, C, F⟩) ⟨P, C, F⟩ 0 [] n).1.length ≤ n :=
    interleaveLoop_length_le n _ _ 0 [] (by simp)
  have hreach := interleaveLoop_reaches (Slices.totalLen ⟨P, C, F⟩) ⟨P, C, F⟩ 0 [] n le_rfl
  have htot := interleaveLoop_length_total (Slices.totalLen ⟨P, C, F⟩) ⟨P, C, F⟩ 0 [] n
  have hfull : (interleaveLoop (Slices.totalLen ⟨P, C, F⟩) ⟨P, C, F⟩ 0 [] n).1.length = n := by
    rcases hreach with h | h
    · omega
    · rw [h] at htot
      simp only [List.length_nil, Nat.zero_add, Nat.add_zero] at htot
      have : Slices.totalLen ⟨P, C, F⟩ = P.length + C.length + F.length := rfl
      omega
  rw [interleave_eq_padded_of_nodup ⟨P, C, F⟩ n hnd,
    padFeed_eq_of_ge _ (le_of_eq hfull.symm), hfull]

/-! ## Concrete inputs from the spec's cadence example (§8) -/

/-- The personal bucket `p1..p10` of the cadence example, scores arbitrary
(slicing only reads order). -/
def cadencePersonal : List (String × ℚ) :=
  [("p1", 0), ("p2", 0), ("p3", 0), ("p4", 0), ("p5", 0),
   ("p6", 0), ("p7", 0), ("p8", 0), ("p9", 0), ("p10", 0)]

/-- The category bucket `c1..c5` of the cadence example. -/
def cadenceCategory : List (String × ℚ) :=
  [("c1", 0), ("c2", 0), ("c3", 0), ("c4", 0), ("c5", 0)]

/-- The fresh bucket `f1..f3` of the cadence example. -/
def cadenceFresh : List (String × ℚ) :=
  [("f1", 0), ("f2", 0), ("f3", 0)]

/-- The ratios 0.6 / 0.3 / 0.1 of the cadence example, as reduced
rationals. -/
def cadenceRatios : BucketRatios :=
  ⟨⟨3, 5, by decide, by decide⟩, ⟨3, 10, by decide, by decide⟩,
   ⟨1, 10, by decide, by decide⟩⟩

/-! ## Theorems -/

/-- C9: `filter_seen_pairs` returns the input with exactly the pairs whose id
is in the shown-set removed (a sublist, so the order of the remaining pairs
is preserved), and it is idempotent. -/
theorem filter_seen_exact_order_idempotent :
    ∀ (l : List (String × ℚ)) (s : List String),
      List.Sublist (filter_seen_pairs l s) l ∧
      (∀ p : String × ℚ, p ∈ filter_seen_pairs l s ↔ p ∈ l ∧ p.1 ∉ s) ∧
      filter_seen_pairs (filter_seen_pairs l s) s = filter_seen_pairs l s := by
  intro l s
  refine ⟨List.filter_sublist l, fun p => ?_, ?_⟩
  · simp [filter_seen_pairs, List.mem_filter]
  · simp [filter_seen_pairs, List.filter_filter]

/-- C5: `slice_buckets_by_ratio` always returns exactly the first
`num_category` / `num_fresh` ids of the category and fresh buckets (never
extended), and the personal slice is the first `num_personal` ids followed by
the deficit backfill drawn from the personal bucket at indices
`[num_personal, num_personal + deficit)`. -/
theorem slice_backfill_only_from_personal :
    ∀ (personal category fresh : List (String × ℚ)) (n : ℕ) (ratios : BucketRatios),
      (slice_buckets_by_ratio personal category fresh n ratios).category
        = (category.map Prod.fst).take (numFor ratios.category n) ∧
      (slice_buckets_by_ratio personal category fresh n ratios).fresh
        = (fresh.map Prod.fst).take (numFor ratios.fresh n) ∧
      (slice_buckets_by_ratio personal category fresh n ratios).personal
        = (personal.map Prod.fst).take (numFor ratios.personal n) ++
          ((personal.map Prod.fst).drop (numFor ratios.personal n)).take
            (n - (((personal.map Prod.fst).take (numFor ratios.personal n)).length
              + ((category.map Prod.fst).take (numFor ratios.category n)).length
              + ((fresh.map Prod.fst).take (numFor ratios.fresh n)).length)) := by
  intro personal category fresh n ratios
  simp only [slice_buckets_by_ratio, List.map_take, List.map_drop]
  refine ⟨trivial, trivial, ?_⟩
  split
  · rfl
  · rename_i h
    have h0 : n - (((personal.map Prod.fst).take (numFor ratios.personal n)).length
        + ((category.map Prod.fst).take (numFor ratios.category n)).length
        + ((fresh.map Prod.fst).take (numFor ratios.fresh n)).length) = 0 := by
      omega
    rw [h0, List.take_zero, List.append_nil]

/-- C6: when the model raises, or returns anything other than a non-empty
dict, `score_with_model_or_fallback` returns the supplied fallback map when
that map is non-empty, and otherwise maps every input feature key to `0.0`
(so the failure never escapes to the caller). -/
theorem score_fallback_chain :
    ∀ (out : PredictOutcome) (keys : List String) (fb : Option (List (String × ℚ))),
      (out = .raises ∨ out = .returns none ∨ out = .returns (some [])) →
      (∀ l, fb = some l → l ≠ [] →
        score_with_model_or_fallback out keys fb = l) ∧
      ((fb = none ∨ fb = some []) →
        score_with_model_or_fallback out keys fb = keys.map (fun pid => (pid, 0))) := by
  intro out keys fb hout
  have hfall : score_with_model_or_fallback out keys fb = scoreFallback keys fb := by
    rcases hout with h | h | h <;> subst h <;> simp [score_with_model_or_fallback]
  constructor
  · intro l hl hne
    subst hl
    rw [hfall]
    simp [scoreFallback, List.length_pos, hne]
  · intro hl
    rcases hl with h | h <;> subst h <;> rw [hfall] <;> simp [scoreFallback]

/-- C6 witness: the scorer raising with the non-empty fallback map
`{"x": 5}` supplied yields exactly that map. -/
theorem score_fallback_chain_witness :
    score_with_model_or_fallback .raises ["a"] (some [("x", 5)]) = [("x", 5)] :=
  (score_fallback_chain .raises ["a"] (some [("x", 5)]) (Or.inl rfl)).1
    [("x", 5)] rfl (by decide)

/-- C7 counterexample: when both stores return no rows for the non-empty id
list `["x"]`, `join_product_metadata` returns the empty map — there is no
minimal-stub policy in the code, under either value of the BigQuery
configuration flag, and the requested id is absent from the result. -/
theorem join_metadata_no_stub_counterexample :
    join_product_metadata true (fun _ => []) (fun _ => .ok []) ["x"] = [] ∧
    join_product_metadata false (fun _ => []) (fun _ => .ok []) ["x"] = [] ∧
    dictGet (join_product_metadata true (fun _ => []) (fun _ => .ok []) ["x"]) "x" = none :=
  ⟨rfl, rfl, rfl⟩

/-- C7 (amended): when the primary store yields a non-empty map the secondary
is not consulted (the result is the primary map, for any secondary); when the
primary yields nothing and BigQuery is configured, the secondary's rows are
returned; and when both yield nothing (or the secondary is unconfigured or
raises) the result is the empty map — ID-only stubs are never produced. -/
theorem join_metadata_fallback_chain :
    ∀ (bc : Bool) (pg : List String → List Row)
      (bq bq' : List String → Except Unit (List Row)) (ids : List String),
      (buildDict (pg ids) ≠ [] →
        join_product_metadata bc pg bq ids = buildDict (pg ids) ∧
        join_product_metadata bc pg bq ids = join_product_metadata bc pg bq' ids) ∧
      (∀ rows, buildDict (pg ids) = [] → bc = true → bq ids = .ok rows →
        join_product_metadata bc pg bq ids = buildDict rows) ∧
      (buildDict (pg ids) = [] → (bc = false ∨ ∃ e, bq ids = .error e) →
        join_product_metadata bc pg bq ids = []) := by
  intro bc pg bq bq' ids
  refine ⟨fun hne => ?_, fun rows hq hbc hok => ?_, fun hq hsec => ?_⟩
  · constructor <;> simp [join_product_metadata, hne]
  · subst hbc
    simp [join_product_metadata, hq, hok]
  · rcases hsec with h | ⟨e, h⟩
    · subst h
      simp [join_product_metadata, hq]
    · cases bc <;> simp [join_product_metadata, hq, h]

/-- C7 witness: primary empty, BigQuery configured and returning one row for
the same requested ids; the result is the mapped BigQuery rows. -/
theorem join_metadata_fallback_chain_witness :
    join_product_metadata true (fun _ => []) (fun _ => .ok [{ product_id := "x" }]) ["x"]
      = buildDict [{ product_id := "x" }] :=
  (join_metadata_fallback_chain true (fun _ => [])
    (fun _ => .ok [{ product_id := "x" }]) (fun _ => .ok []) ["x"]).2.1
    [{ product_id := "x" }] rfl rfl rfl

/-- C4 counterexample: on the spec's cadence example (personal `p1..p10`,
category `c1..c5`, fresh `f1..f3`, size 9, ratios 0.6/0.3/0.1) the
interleaved result is not `p1,p2,p3,c1,c2,p4,p5,p6,p7`: on the step whose
pattern names the empty fresh queue, the fallback pops from the first
non-empty queue in iteration order — which is `personal`, not `category`. -/
theorem interleave_cadence_counterexample :
    interleave_buckets
      (slice_buckets_by_ratio cadencePersonal cadenceCategory cadenceFresh 9 cadenceRatios) 9
      ≠ ["p1", "p2", "p3", "c1", "c2", "p4", "p5", "p6", "p7"] := by
  decide

/-- C4 (amended): on the cadence example the slicing yields a 7-id personal
slice, a 2-id category slice and an empty fresh slice, and the interleave —
with the empty-queue fallback popping from the first non-empty queue in
iteration order `{personal, category, fresh}`, hence from `personal` — returns
exactly `p1,p2,p3,c1,p4,p5,p6,p7,c2`. -/
theorem interleave_cadence_actual :
    slice_buckets_by_ratio cadencePersonal cadenceCategory cadenceFresh 9 cadenceRatios
      = ⟨["p1", "p2", "p3", "p4", "p5", "p6", "p7"], ["c1", "c2"], []⟩ ∧
    interleave_buckets
      (slice_buckets_by_ratio cadencePersonal cadenceCategory cadenceFresh 9 cadenceRatios) 9
      = ["p1", "p2", "p3", "c1", "p4", "p5", "p6", "p7", "c2"] := by
  constructor <;> decide

/-! ## Pipeline helper lemmas -/

lemma slice_personal_subset (p c f : List (String × ℚ)) (n : ℕ) (r : BucketRatios) :
    ∀ x ∈ (slice_buckets_by_ratio p c f n r).personal, x ∈ p.map Prod.fst := by
  intro x hx
  simp only [slice_buckets_by_ratio] at hx
  split at hx
  · rcases List.mem_append.mp hx with h | h
    · exact List.map_subset Prod.fst (List.take_subset _ _) h
    · exact List.map_subset Prod.fst
        (fun y hy => List.drop_subset _ _ (List.take_subset _ _ hy)) h
  · exact List.map_subset Prod.fst (List.take_subset _ _) hx

lemma slice_category_subset (p c f : List (String × ℚ)) (n : ℕ) (r : BucketRatios) :
    ∀ x ∈ (slice_buckets_by_ratio p c f n r).category, x ∈ c.map Prod.fst := by
  intro x hx
  exact List.map_subset Prod.fst (List.take_subset _ _) hx

lemma slice_fresh_subset (p c f : List (String × ℚ)) (n : ℕ) (r : BucketRatios) :
    ∀ x ∈ (slice_buckets_by_ratio p c f n r).fresh, x ∈ f.map Prod.fst := by
  intro x hx
  exact List.map_subset Prod.fst (List.take_subset _ _) hx

lemma mem_filter_seen_not_shown {l : List (String × ℚ)} {S : List String} {x : String}
    (hx : x ∈ (filter_seen_pairs l S).map Prod.fst) : x ∉ S := by
  rcases List.mem_map.mp hx with ⟨pr, hpr, rfl⟩
  have := List.of_mem_filter hpr
  simpa using this

lemma items_ids_sublist (l : List String) (g : String → Option ProductMeta) :
    List.Sublist ((l.filterMap (fun pid => (g pid).map (fun m => (pid, m)))).map Prod.fst) l := by
  induction l with
  | nil => simp
  | cons x xs ih =>
    cases hgx : g x with
    | none => simpa [List.filterMap_cons, hgx] using ih.cons x
    | some m => simpa [List.filterMap_cons, hgx] using ih.cons₂ x

/-- C1 counterexample: with slices personal `["a"]`, category `["a"]`, fresh
`["b"]` and requested size 2, the union holds 2 distinct ids, yet the output
is `["a"]` of length 1: the duplicate is popped twice before the
de-duplication pass, which runs only after the fill loop stops. -/
theorem interleave_size_counterexample :
    (interleave_buckets ⟨["a"], ["a"], ["b"]⟩ 2).length ≠ 2 ∧
    2 ≤ (dedupFirst (["a"] ++ ["a"] ++ ["b"])).length := by
  constructor <;> decide

/-- C1 (amended): the interleave output never exceeds the requested size, and
it reaches the requested size whenever the three slices jointly contain no
duplicate id and hold at least that many ids in total. -/
theorem interleave_size_bound :
    ∀ (P C F : List String) (n : ℕ),
      (interleave_buckets ⟨P, C, F⟩ n).length ≤ n ∧
      ((P ++ C ++ F).Nodup → n ≤ P.length + C.length + F.length →
        (interleave_buckets ⟨P, C, F⟩ n).length = n) :=
  fun P C F n =>
    ⟨interleave_length_le _ n, fun hnd hlen => interleave_length_eq P C F n hnd hlen⟩

/-- C1 witness: three disjoint singleton slices fill a size-3 feed
exactly. -/
theorem interleave_size_bound_witness :
    (interleave_buckets ⟨["x"], ["y"], ["z"]⟩ 3).length = 3 :=
  (interleave_size_bound ["x"] ["y"] ["z"] 3).2 (by decide) (by decide)

/-- C2: the interleave output never repeats an id, for any slices and
requested size; consequently the assembled feed's id sequence and the
hydrated feed items contain no repeated ids either. -/
theorem no_duplicate_ids :
    (∀ (s : Slices) (n : ℕ), (interleave_buckets s n).Nodup) ∧
    (∀ (env : Env) (u : String) (n : Option ℕ),
      ((get_diverse_feed env u n).final_ids).Nodup ∧
      (((get_diverse_feed env u n).items).map Prod.fst).Nodup) := by
  have hbase : ∀ (s : Slices) (n : ℕ), (interleave_buckets s n).Nodup := by
    intro s n
    simp only [interleave_buckets]
    exact dedupLoop_nodup _ [] [] n List.nodup_nil (by simp)
  refine ⟨hbase, fun env u n => ⟨?_, ?_⟩⟩
  · simp only [get_diverse_feed]
    exact hbase _ _
  · simp only [get_diverse_feed]
    exact List.Nodup.sublist (items_ids_sublist _ _) (hbase _ _)

/-- C3: for a non-anonymous user, no id of the user's shown-set reaches the
assembled feed: every output id comes from a slice of a
`filter_seen_pairs`-filtered bucket. -/
theorem history_exclusion (env : Env) (user_id : String) (n : Option ℕ)
    (h : user_id ≠ "anonymous") :
    (∀ x ∈ (get_diverse_feed env user_id n).final_ids, x ∉ env.getShown user_id) ∧
    (∀ x ∈ ((get_diverse_feed env user_id n).items).map Prod.fst,
      x ∉ env.getShown user_id) := by
  have hmain : ∀ x ∈ (get_diverse_feed env user_id n).final_ids, x ∉ env.getShown user_id := by
    intro x hx hmem
    have hb : (user_id == "anonymous") = false := beq_eq_false_iff_ne.mpr h
    simp only [get_diverse_feed, hb, Bool.false_eq_true, if_false] at hx
    rcases mem_interleave hx with h1 | h1 | h1
    · exact mem_filter_seen_not_shown (slice_personal_subset _ _ _ _ _ x h1) hmem
    · exact mem_filter_seen_not_shown (slice_category_subset _ _ _ _ _ x h1) hmem
    · exact mem_filter_seen_not_shown (slice_fresh_subset _ _ _ _ _ x h1) hmem
  refine ⟨hmain, fun x hx => hmain x ?_⟩
  revert hx
  simp only [get_diverse_feed]
  exact fun hx => (items_ids_sublist _ _).subset hx

/-- Concrete environment for the C3 witness: the shown-set holds `s1`, which
is also the top popular candidate. -/
def envC3 : Env :=
  { feed_default_size := 3
    bucket_ratios := ⟨⟨3, 4, by decide, by decide⟩, ⟨3, 20, by decide, by decide⟩,
      ⟨1, 10, by decide, by decide⟩⟩
    monolith_enabled := false
    getShown := fun _ => ["s1"]
    popular := ["s1", "a", "b"]
    recent := []
    monolith := fun _ _ => .ok []
    bq_configured := false
    pgMeta := fun _ => []
    bqMeta := fun _ => .ok [] }

/-- C3 witness: the shown id `s1` does not appear in user `u`'s feed. -/
theorem history_exclusion_witness :
    "s1" ∉ (get_diverse_feed envC3 "u" (some 3)).final_ids :=
  fun hmem =>
    (history_exclusion envC3 "u" (some 3) (by decide)).1 "s1" hmem (by decide)

/-- C10 counterexample: with slices personal `["a","b"]`, category
`["b","a"]` (shared ids) and size 4, the output is `["a","b"]`; the ids
belonging to the category slice appear in the output in the order `a,b`,
not the category slice's own order `b,a`. -/
theorem interleave_order_counterexample :
    interleave_buckets ⟨["a", "b"], ["b", "a"], []⟩ 4 = ["a", "b"] ∧
    ¬ List.Sublist ((interleave_buckets ⟨["a", "b"], ["b", "a"], []⟩ 4).filter
        (fun y => decide (y ∈ (["b", "a"] : List String)))) ["b", "a"] := by
  refine ⟨by decide, fun h => ?_⟩
  have he : (interleave_buckets ⟨["a", "b"], ["b", "a"], []⟩ 4).filter
      (fun y => decide (y ∈ (["b", "a"] : List String))) = ["a", "b"] := by decide
  rw [he] at h
  have := h.eq_of_length rfl
  exact absurd this (by decide)

/-- C10 (amended): every output id occurs in one of the three input slices,
and when the slices jointly contain no duplicate id, the output ids belonging
to each slice appear in the output in that slice's own order (a sublist of
the slice). -/
theorem interleave_origin_and_order :
    ∀ (P C F : List String) (n : ℕ),
      (∀ x ∈ interleave_buckets ⟨P, C, F⟩ n, x ∈ P ∨ x ∈ C ∨ x ∈ F) ∧
      ((P ++ C ++ F).Nodup →
        List.Sublist ((interleave_buckets ⟨P, C, F⟩ n).filter
          (fun y => decide (y ∈ P))) P ∧
        List.Sublist ((interleave_buckets ⟨P, C, F⟩ n).filter
          (fun y => decide (y ∈ C))) C ∧
        List.Sublist ((interleave_buckets ⟨P, C, F⟩ n).filter
          (fun y => decide (y ∈ F))) F) := by
  intro P C F n
  refine ⟨fun x hx => mem_interleave hx, fun hnd => ?_⟩
  obtain ⟨h1, h2, h3⟩ := interleave_filter_prefix P C F n hnd
  exact ⟨h1.sublist, h2.sublist, h3.sublist⟩

/-- C10 witness: on three disjoint singleton slices, the output ids drawn
from the personal slice appear in the personal slice's order. -/
theorem interleave_origin_and_order_witness :
    List.Sublist ((interleave_buckets ⟨["x"], ["y"], ["z"]⟩ 3).filter
      (fun y => decide (y ∈ (["x"] : List String)))) ["x"] :=
  ((interleave_origin_and_order ["x"] ["y"] ["z"] 3).2 (by decide)).1

/-- Concrete environment for the C8 counterexample: Monolith scoring enabled,
two popular candidates of which the second gets the higher model score. -/
def anonEnv : Env :=
  { feed_default_size := 50
    bucket_ratios := ⟨⟨3, 4, by decide, by decide⟩, ⟨3, 20, by decide, by decide⟩,
      ⟨1, 10, by decide, by decide⟩⟩
    monolith_enabled := true
    getShown := fun _ => []
    popular := ["a", "b"]
    recent := []
    monolith := fun _ ids => .ok (ids.map (fun pid => (pid, if pid = "b" then 2 else 1)))
    bq_configured := false
    pgMeta := fun _ => []
    bqMeta := fun _ => .ok [] }

/-- The same environment with Monolith scoring disabled. -/
def anonEnvOff : Env :=
  { anonEnv with monolith_enabled := false }

/-- C8 counterexample: with Monolith enabled, the anonymous user's scoring
differs from a non-anonymous user with an empty shown-set (the Monolith
branch is gated on `not is_anonymous`), so the two feeds differ. -/
theorem anonymous_bypass_counterexample :
    anonEnv.getShown "u" = [] ∧
    (get_diverse_feed anonEnv "u" (some 2)).final_ids = ["b", "a"] ∧
    (get_diverse_feed anonEnv "anonymous" (some 2)).final_ids = ["a", "b"] ∧
    (get_diverse_feed anonEnv "anonymous" (some 2)).final_ids
      ≠ (get_diverse_feed anonEnv "u" (some 2)).final_ids :=
  ⟨rfl, by decide, by decide, by decide⟩

/-- C8 (amended): for an anonymous user — in every environment, so also with
Monolith enabled or a non-empty history store — history is neither read nor
written, the whole response is independent of the history store (hence no id
is excluded on history grounds) and independent of the Monolith flag (the
Monolith branch is gated on `not is_anonymous`, so the fallback scorer is
used); and whenever Monolith scoring is disabled, the candidate ids, scores,
hydrated items and final feed are exactly those of a non-anonymous user with
an empty shown-set. -/
theorem anonymous_bypass_amended :
    (∀ (env : Env) (n : Option ℕ),
      (get_diverse_feed env "anonymous" n).history_read = false ∧
      (get_diverse_feed env "anonymous" n).history_written = false) ∧
    (∀ (env : Env) (g : String → List String) (n : Option ℕ),
      get_diverse_feed { env with getShown := g } "anonymous" n
        = get_diverse_feed env "anonymous" n) ∧
    (∀ (env : Env) (n : Option ℕ),
      get_diverse_feed { env with monolith_enabled := false } "anonymous" n
        = get_diverse_feed env "anonymous" n) ∧
    (∀ (env : Env) (u : String) (n : Option ℕ),
      u ≠ "anonymous" → env.getShown u = [] → env.monolith_enabled = false →
      (get_diverse_feed env "anonymous" n).final_ids
        = (get_diverse_feed env u n).final_ids ∧
      (get_diverse_feed env "anonymous" n).items = (get_diverse_feed env u n).items ∧
      (get_diverse_feed env "anonymous" n).personal_scores
        = (get_diverse_feed env u n).personal_scores ∧
      (get_diverse_feed env u n).history_read = true ∧
      (get_diverse_feed env u n).history_written = true) := by
  refine ⟨fun env n => ?_, fun env g n => ?_, fun env n => ?_,
    fun env u n hu hshown hmono => ?_⟩
  · simp [get_diverse_feed]
  · simp [get_diverse_feed]
  · simp [get_diverse_feed]
  · have hb : (u == "anonymous") = false := beq_eq_false_iff_ne.mpr hu
    simp [get_diverse_feed, hb, hshown, hmono]

/-- C8 witness: with Monolith disabled, the anonymous feed equals the feed of
non-anonymous user `u` with an empty shown-set. -/
theorem anonymous_bypass_witness :
    (get_diverse_feed anonEnvOff "anonymous" (some 2)).final_ids
      = (get_diverse_feed anonEnvOff "u" (some 2)).final_ids :=
  (anonymous_bypass_amended.2.2.2 anonEnvOff "u" (some 2) (by decide) rfl rfl).1

end RecSys
